import Mathlib

/-!
# Ultrasonic range finder (`SourceCode/SourceCode.c`)

A shallow embedding of the timing engine of the range finder:

* the pulse generator (`HardwareInitialization`, `PulseTriggerAction`,
  `TimerInitialization`),
* the echo timer (the two busy-wait loops of `main`),
* the distance computation and the running minimum / maximum kept by the
  sampling loop of `main`.

Conventions of the embedding.

* C `double` values are idealised as exact rationals (`ℚ`); the decimal
  constants of the source are the rationals they denote.
* The `char` objects `ControlData` and `WriteData` are kept as their 8-bit
  object representation (a `Nat` read modulo 256).  The value a `char` has in
  an expression depends on whether `char` is signed on the target, which is a
  parameter (`signedChar`) of every function that reads one.
* `EventCounter` is a C `int`, kept as an `Int`; it is incremented only under
  the guard `EventCounter < 500`, where the addition cannot overflow.
* Side effects on the outside world (port writes, timer requests, console
  output) are appended to a trace, in program order.
-/

namespace UltrasonicSensor

/-! ## Data model -/

/-- The lines `main` writes to the console with `printf`. -/
inductive Line where
  | banner
  | measured (duration distance : ℚ)
  | rejected (duration : ℚ)
  | maximum (distance : ℚ)
  | minimum (distance : ℚ)
  | footer
  deriving DecidableEq

/-- A `struct timespec`. -/
structure timespec where
  tv_sec : Nat
  tv_nsec : Nat
  deriving DecidableEq

/-- A `struct itimerspec`. -/
structure itimerspec where
  it_value : timespec
  it_interval : timespec
  deriving DecidableEq

/-- The nanoseconds a `timespec` stands for. -/
def timespec.nanoseconds (t : timespec) : Nat :=
  t.tv_sec * 1000000000 + t.tv_nsec

/-- The I/O addresses mapped by `HardwareInitialization`. -/
inductive Port where
  | SensorTrigger
  | PortControl
  | SensorData
  deriving DecidableEq

/-- The address `HardwareInitialization` maps each port to. -/
def Port.address : Port → Nat
  | .SensorTrigger => 0x288
  | .PortControl => 0x28B
  | .SensorData => 0x289

/-- The externally visible actions of the program, in the order performed. -/
inductive Effect where
  | out8 (port : Port) (value : Nat)
  | timer_settime (spec : itimerspec)
  | printf (line : Line)
  deriving DecidableEq

/-- The file-scope variables of the program that the modelled code reads or
writes, the pending one-shot timer, and the trace of effects. -/
structure Machine where
  EventCounter : Int
  EchoDuration : ℚ
  Distance : ℚ
  MaxDistance : ℚ
  MinDistance : ℚ
  ControlData : Nat
  WriteData : Nat
  pending : Option itimerspec
  trace : List Effect

/-- The values given to the variables by their static initialisers:
`MaxDistance = 0`, `MinDistance = 1000`, every other variable zero. -/
def Machine.initial : Machine where
  EventCounter := 0
  EchoDuration := 0
  Distance := 0
  MaxDistance := 0
  MinDistance := 1000
  ControlData := 0
  WriteData := 0
  pending := none
  trace := []

/-- The results the operating system gives to the two timer calls of one
`TimerInitialization`: `0` on success, `-1` on failure. -/
structure TimerService where
  timer_create : Int
  timer_settime : Int

/-! ## `char` arithmetic -/

/-- The value a `char` object with representation `byte` has in an
expression (after integer promotion). -/
def charToInt (signedChar : Bool) (byte : Nat) : Int :=
  if signedChar && decide (128 ≤ byte % 256) then (byte % 256 : Nat) - 256 else (byte % 256 : Nat)

/-- The representation stored when the `int` value `v` is assigned to a
`char` object, and the byte passed on when it is converted to `uint8_t`. -/
def intToChar (v : Int) : Nat :=
  (v % 256).toNat

/-! ## Pulse generator -/

/-- The function `HardwareInitialization` (lines 49-69): port A output, port B
input, trigger line deasserted. -/
def HardwareInitialization (signedChar : Bool) (s : Machine) : Machine :=
  let s := { s with ControlData := intToChar 0x02 }
  let s := { s with WriteData := intToChar 0x00 }
  let s := { s with trace := s.trace ++ [Effect.out8 Port.PortControl (intToChar (charToInt signedChar s.ControlData))] }
  { s with trace := s.trace ++ [Effect.out8 Port.SensorTrigger (intToChar (charToInt signedChar s.WriteData))] }

/-- The `time_info` that `TimerInitialization` hands to `timer_settime`
(lines 107-115).  The structure has static storage and only the two `tv_nsec`
fields are ever assigned, so both `tv_sec` fields are zero. -/
def time_info (signedChar : Bool) (s : Machine) : itimerspec where
  it_value :=
    { tv_sec := 0
      tv_nsec := if charToInt signedChar s.WriteData = 0x00 then 99000000 else 1000000 }
  it_interval := { tv_sec := 0, tv_nsec := 0 }

/-- The function `TimerInitialization` (lines 92-144).  The results of `timer_create` and
`timer_settime` are not looked at and the function returns nothing; the
request takes effect in the timer service when `timer_settime` succeeds. -/
def TimerInitialization (signedChar : Bool) (os : TimerService) (s : Machine) : Machine :=
  let info := time_info signedChar s
  { s with
    pending := if os.timer_settime = 0 then some info else s.pending
    trace := s.trace ++ [Effect.timer_settime info] }

/-- The function `PulseTriggerAction` (lines 73-90), the handler run at each
expiry of the timer. -/
def PulseTriggerAction (signedChar : Bool) (os : TimerService) (s : Machine) : Machine :=
  let s :=
    if charToInt signedChar s.WriteData = 0x00 then
      { s with WriteData := intToChar 0xFF }
    else
      { s with WriteData := intToChar 0x00 }
  let s := { s with trace := s.trace ++ [Effect.out8 Port.SensorTrigger (intToChar (charToInt signedChar s.WriteData))] }
  TimerInitialization signedChar os s

/-- The state after `n` expiries, each handled by `PulseTriggerAction`. -/
def expiries (signedChar : Bool) (os : TimerService) : Nat → Machine → Machine
  | 0, s => s
  | n + 1, s => PulseTriggerAction signedChar os (expiries signedChar os n s)

/-! ## Echo timer -/

/-- The busy-wait `while((in8(SensorData)&0x01)==level);` run against the
bytes that successive reads of the port return.  The result is the number of
reads performed, the last one being the read that ends the wait, and the
reads left over; `none` when every read keeps the loop spinning. -/
def busyWait (level : Nat) : List Nat → Option (Nat × List Nat)
  | [] => none
  | byte :: rest =>
    if byte &&& 0x01 = level then
      (busyWait level rest).map fun r => (r.1 + 1, r.2)
    else
      some (1, rest)

/-- The reads after which the two time stamps of one measurement are taken. -/
structure EchoWindow where
  startAfter : Nat
  endAfter : Nat
  rest : List Nat
  deriving DecidableEq

/-- Lines 159-169 of `main`: wait for the rising edge, take `StartTime`,
wait for the falling edge, take `EndTime`.  `startAfter` and `endAfter` count
the reads of the port completed when `ClockCycles()` is called. -/
def measureEcho (reads : List Nat) : Option EchoWindow :=
  match busyWait 0x00 reads with
  | none => none
  | some (n, afterRise) =>
    match busyWait 0x01 afterRise with
    | none => none
    | some (m, rest) => some { startAfter := n, endAfter := n + m, rest := rest }

/-! ## Distance computation and sampling loop -/

/-- Lines 171-190 of `main`, the part of one iteration that follows the echo
measurement; `d` is the value assigned to `EchoDuration` on line 171. -/
def loopBody (s : Machine) (d : ℚ) : Machine :=
  let s := { s with EchoDuration := d }
  let s :=
    if s.EchoDuration > 0.00002 ∧ s.EchoDuration < 0.018 then
      let s := { s with Distance := s.EchoDuration * 13544.08 / 2 }
      let s := if s.Distance > s.MaxDistance then { s with MaxDistance := s.Distance } else s
      let s := if s.Distance < s.MinDistance then { s with MinDistance := s.Distance } else s
      { s with trace := s.trace ++ [Effect.printf (Line.measured s.EchoDuration s.Distance)] }
    else
      { s with trace := s.trace ++ [Effect.printf (Line.rejected s.EchoDuration)] }
  { s with EventCounter := s.EventCounter + 1 }

/-- The loop `while(EventCounter<500)` of `main` run against the echo
durations measured in successive iterations.  When the durations run out
while the guard still holds, the program is left waiting for the next echo. -/
def samplingLoop : Machine → List ℚ → Machine
  | s, [] => s
  | s, d :: ds => if s.EventCounter < 500 then samplingLoop (loopBody s d) ds else s

/-- The function `main` (lines 146-200) run against the results of the timer calls and
the echo durations measured by the loop.  The second component is the value
returned, `none` while the loop is still waiting for an echo. -/
def main (signedChar : Bool) (os : TimerService) (durations : List ℚ) : Machine × Option Int :=
  let s := { Machine.initial with EventCounter := 0 }
  let s := HardwareInitialization signedChar s
  let s := TimerInitialization signedChar os s
  let s := { s with trace := s.trace ++ [Effect.printf Line.banner] }
  let s := samplingLoop s durations
  if s.EventCounter < 500 then
    (s, none)
  else
    let s := { s with trace := s.trace ++ [Effect.printf (Line.maximum s.MaxDistance)] }
    let s := { s with trace := s.trace ++ [Effect.printf (Line.minimum s.MinDistance)] }
    let s := { s with trace := s.trace ++ [Effect.printf Line.footer] }
    (s, some 0)

/-- The distances, in inches, of the durations of `ds` that lie in the
plausibility window, in the order measured. -/
def validDistances (ds : List ℚ) : List ℚ :=
  (ds.filter fun d => decide (0.00002 < d ∧ d < 0.018)).map fun d => d * 13544.08 / 2

/-- The state in which `main` first tests the guard of its loop: the part of
`main` that precedes `samplingLoop`. -/
def loopEntry (signedChar : Bool) (os : TimerService) : Machine :=
  let s := { Machine.initial with EventCounter := 0 }
  let s := HardwareInitialization signedChar s
  let s := TimerInitialization signedChar os s
  { s with trace := s.trace ++ [Effect.printf Line.banner] }

/-! ## Lemmas on one iteration of the sampling loop -/

theorem loopBody_EventCounter (s : Machine) (d : ℚ) :
    (loopBody s d).EventCounter = s.EventCounter + 1 := by
  unfold loopBody
  dsimp only
  split_ifs <;> rfl

theorem loopBody_rejected (s : Machine) (d : ℚ) (h : ¬ (0.00002 < d ∧ d < 0.018)) :
    loopBody s d =
      { s with
        EchoDuration := d
        trace := s.trace ++ [Effect.printf (Line.rejected d)]
        EventCounter := s.EventCounter + 1 } := by
  unfold loopBody
  dsimp only
  rw [if_neg (by simpa using h)]

theorem loopBody_MinDistance_rejected (s : Machine) (d : ℚ) (h : ¬ (0.00002 < d ∧ d < 0.018)) :
    (loopBody s d).MinDistance = s.MinDistance := by
  rw [loopBody_rejected s d h]

theorem loopBody_MaxDistance_rejected (s : Machine) (d : ℚ) (h : ¬ (0.00002 < d ∧ d < 0.018)) :
    (loopBody s d).MaxDistance = s.MaxDistance := by
  rw [loopBody_rejected s d h]

theorem loopBody_MinDistance (s : Machine) (d : ℚ) (h : 0.00002 < d ∧ d < 0.018) :
    (loopBody s d).MinDistance = min (d * 13544.08 / 2) s.MinDistance := by
  unfold loopBody
  dsimp only
  rw [if_pos (by simpa using h)]
  by_cases h1 : d * 13544.08 / 2 > s.MaxDistance <;> by_cases h2 : d * 13544.08 / 2 < s.MinDistance
  all_goals simp only [h1, h2, if_true, if_false]
  all_goals first
    | exact (min_eq_left (le_of_lt h2)).symm
    | exact (min_eq_right (not_lt.mp h2)).symm

theorem loopBody_MaxDistance (s : Machine) (d : ℚ) (h : 0.00002 < d ∧ d < 0.018) :
    (loopBody s d).MaxDistance = max (d * 13544.08 / 2) s.MaxDistance := by
  unfold loopBody
  dsimp only
  rw [if_pos (by simpa using h)]
  by_cases h1 : d * 13544.08 / 2 > s.MaxDistance <;> by_cases h2 : d * 13544.08 / 2 < s.MinDistance
  all_goals simp only [h1, h2, if_true, if_false]
  all_goals first
    | exact (max_eq_left (le_of_lt h1)).symm
    | exact (max_eq_right (not_lt.mp h1)).symm

theorem loopBody_Distance (s : Machine) (d : ℚ) (h : 0.00002 < d ∧ d < 0.018) :
    (loopBody s d).Distance = d * 13544.08 / 2 := by
  unfold loopBody
  dsimp only
  rw [if_pos (by simpa using h)]
  split_ifs <;> rfl

theorem loopBody_trace_measured (s : Machine) (d : ℚ) (h : 0.00002 < d ∧ d < 0.018) :
    (loopBody s d).trace = s.trace ++ [Effect.printf (Line.measured d (d * 13544.08 / 2))] := by
  unfold loopBody
  dsimp only
  rw [if_pos (by simpa using h)]
  split_ifs <;> rfl

/-! ## Lemmas on the sampling loop -/

theorem samplingLoop_eq_foldl (s : Machine) (ds : List ℚ) :
    samplingLoop s ds = List.foldl loopBody s (ds.take (500 - s.EventCounter).toNat) := by
  induction ds generalizing s with
  | nil => simp [samplingLoop]
  | cons d ds ih =>
    unfold samplingLoop
    by_cases h : s.EventCounter < 500
    · rw [if_pos h, ih, loopBody_EventCounter]
      have hk : (500 - s.EventCounter).toNat = (500 - (s.EventCounter + 1)).toNat + 1 := by omega
      rw [hk, List.take_succ_cons, List.foldl_cons]
    · rw [if_neg h]
      have hk : (500 - s.EventCounter).toNat = 0 := by omega
      rw [hk, List.take_zero, List.foldl_nil]

theorem foldl_loopBody_MinDistance (ds : List ℚ) (s : Machine) :
    (List.foldl loopBody s ds).MinDistance ≤ s.MinDistance ∧
    (∀ d ∈ ds, 0.00002 < d ∧ d < 0.018 →
      (List.foldl loopBody s ds).MinDistance ≤ d * 13544.08 / 2) ∧
    ((List.foldl loopBody s ds).MinDistance = s.MinDistance ∨
      ∃ d ∈ ds, (0.00002 < d ∧ d < 0.018) ∧
        (List.foldl loopBody s ds).MinDistance = d * 13544.08 / 2) := by
  induction ds generalizing s with
  | nil => simp
  | cons d ds ih =>
    obtain ⟨h1, h2, h3⟩ := ih (loopBody s d)
    rw [List.foldl_cons]
    by_cases hv : 0.00002 < d ∧ d < 0.018
    · rw [loopBody_MinDistance s d hv] at h1 h3
      refine ⟨le_trans h1 (min_le_right _ _), ?_, ?_⟩
      · intro x hx hxv
        rcases List.mem_cons.mp hx with rfl | hx
        · exact le_trans h1 (min_le_left _ _)
        · exact h2 x hx hxv
      · rcases h3 with h3 | ⟨x, hx, hxv, h3⟩
        · rcases min_choice (d * 13544.08 / 2) s.MinDistance with hm | hm
          · exact Or.inr ⟨d, List.mem_cons_self _ _, hv, by rw [h3, hm]⟩
          · exact Or.inl (by rw [h3, hm])
        · exact Or.inr ⟨x, List.mem_cons_of_mem _ hx, hxv, h3⟩
    · rw [loopBody_MinDistance_rejected s d hv] at h1 h3
      refine ⟨h1, ?_, ?_⟩
      · intro x hx hxv
        rcases List.mem_cons.mp hx with rfl | hx
        · exact absurd hxv hv
        · exact h2 x hx hxv
      · rcases h3 with h3 | ⟨x, hx, hxv, h3⟩
        · exact Or.inl h3
        · exact Or.inr ⟨x, List.mem_cons_of_mem _ hx, hxv, h3⟩

theorem foldl_loopBody_MaxDistance (ds : List ℚ) (s : Machine) :
    s.MaxDistance ≤ (List.foldl loopBody s ds).MaxDistance ∧
    (∀ d ∈ ds, 0.00002 < d ∧ d < 0.018 →
      d * 13544.08 / 2 ≤ (List.foldl loopBody s ds).MaxDistance) ∧
    ((List.foldl loopBody s ds).MaxDistance = s.MaxDistance ∨
      ∃ d ∈ ds, (0.00002 < d ∧ d < 0.018) ∧
        (List.foldl loopBody s ds).MaxDistance = d * 13544.08 / 2) := by
  induction ds generalizing s with
  | nil => simp
  | cons d ds ih =>
    obtain ⟨h1, h2, h3⟩ := ih (loopBody s d)
    rw [List.foldl_cons]
    by_cases hv : 0.00002 < d ∧ d < 0.018
    · rw [loopBody_MaxDistance s d hv] at h1 h3
      refine ⟨le_trans (le_max_right _ _) h1, ?_, ?_⟩
      · intro x hx hxv
        rcases List.mem_cons.mp hx with rfl | hx
        · exact le_trans (le_max_left _ _) h1
        · exact h2 x hx hxv
      · rcases h3 with h3 | ⟨x, hx, hxv, h3⟩
        · rcases max_choice (d * 13544.08 / 2) s.MaxDistance with hm | hm
          · exact Or.inr ⟨d, List.mem_cons_self _ _, hv, by rw [h3, hm]⟩
          · exact Or.inl (by rw [h3, hm])
        · exact Or.inr ⟨x, List.mem_cons_of_mem _ hx, hxv, h3⟩
    · rw [loopBody_MaxDistance_rejected s d hv] at h1 h3
      refine ⟨h1, ?_, ?_⟩
      · intro x hx hxv
        rcases List.mem_cons.mp hx with rfl | hx
        · exact absurd hxv hv
        · exact h2 x hx hxv
      · rcases h3 with h3 | ⟨x, hx, hxv, h3⟩
        · exact Or.inl h3
        · exact Or.inr ⟨x, List.mem_cons_of_mem _ hx, hxv, h3⟩

theorem foldl_loopBody_min_le_max (ds : List ℚ) (s : Machine)
    (h : s.MinDistance ≤ s.MaxDistance) :
    (List.foldl loopBody s ds).MinDistance ≤ (List.foldl loopBody s ds).MaxDistance :=
  le_trans (foldl_loopBody_MinDistance ds s).1 (le_trans h (foldl_loopBody_MaxDistance ds s).1)

theorem main_eq_samplingLoop (signedChar : Bool) (os : TimerService) (ds : List ℚ) :
    (main signedChar os ds).1.EventCounter = (samplingLoop (loopEntry signedChar os) ds).EventCounter ∧
    (main signedChar os ds).1.MinDistance = (samplingLoop (loopEntry signedChar os) ds).MinDistance ∧
    (main signedChar os ds).1.MaxDistance = (samplingLoop (loopEntry signedChar os) ds).MaxDistance := by
  unfold main loopEntry
  dsimp only
  split_ifs
  · exact ⟨rfl, rfl, rfl⟩
  · exact ⟨rfl, rfl, rfl⟩

theorem mem_validDistances (ds : List ℚ) (x : ℚ) :
    x ∈ validDistances ds ↔ ∃ d ∈ ds, (0.00002 < d ∧ d < 0.018) ∧ x = d * 13544.08 / 2 := by
  unfold validDistances
  simp only [List.mem_map, List.mem_filter, decide_eq_true_eq]
  constructor
  · rintro ⟨d, ⟨hd, hv⟩, rfl⟩
    exact ⟨d, hd, hv, rfl⟩
  · rintro ⟨d, hd, hv, rfl⟩
    exact ⟨d, ⟨hd, hv⟩, rfl⟩

theorem valid_distance_bounds (d : ℚ) (h : 0.00002 < d ∧ d < 0.018) :
    0 < d * 13544.08 / 2 ∧ d * 13544.08 / 2 < 1000 := by
  obtain ⟨h1, h2⟩ := h
  constructor
  · have : (0 : ℚ) < d := lt_trans (by norm_num) h1
    positivity
  · have : d * 13544.08 / 2 < 0.018 * 13544.08 / 2 := by
      apply div_lt_div_of_pos_right _ (by norm_num)
      exact mul_lt_mul_of_pos_right h2 (by norm_num)
    exact lt_trans this (by norm_num)

theorem foldl_loopBody_EventCounter (ds : List ℚ) (s : Machine) :
    (List.foldl loopBody s ds).EventCounter = s.EventCounter + ds.length := by
  induction ds generalizing s with
  | nil => simp
  | cons d ds ih =>
    rw [List.foldl_cons, ih, loopBody_EventCounter, List.length_cons]
    push_cast
    ring

theorem samplingLoop_append (pre ds : List ℚ) (s : Machine)
    (h : s.EventCounter + pre.length ≤ 500) :
    samplingLoop s (pre ++ ds) = samplingLoop (List.foldl loopBody s pre) ds := by
  induction pre generalizing s with
  | nil => rfl
  | cons p pre ih =>
    rw [List.length_cons] at h
    push_cast at h
    have hlt : s.EventCounter < 500 := by omega
    rw [List.cons_append, samplingLoop, if_pos hlt, List.foldl_cons]
    apply ih
    rw [loopBody_EventCounter]
    omega

theorem samplingLoop_statistics (s : Machine) (ds : List ℚ) (h0 : s.EventCounter = 0)
    (hmin : s.MinDistance = 1000) (hmax : s.MaxDistance = 0)
    (h : ∃ d ∈ ds.take 500, 0.00002 < d ∧ d < 0.018) :
    ((samplingLoop s ds).MinDistance ∈ validDistances (ds.take 500) ∧
      ∀ x ∈ validDistances (ds.take 500), (samplingLoop s ds).MinDistance ≤ x) ∧
    ((samplingLoop s ds).MaxDistance ∈ validDistances (ds.take 500) ∧
      ∀ x ∈ validDistances (ds.take 500), x ≤ (samplingLoop s ds).MaxDistance) := by
  rw [samplingLoop_eq_foldl, h0]
  have hk : ((500 : Int) - 0).toNat = 500 := by decide
  rw [hk]
  obtain ⟨d, hd, hv⟩ := h
  obtain ⟨_, a2, a3⟩ := foldl_loopBody_MinDistance (ds.take 500) s
  obtain ⟨_, b2, b3⟩ := foldl_loopBody_MaxDistance (ds.take 500) s
  refine ⟨⟨?_, ?_⟩, ?_, ?_⟩
  · rcases a3 with a3 | a3
    · have := a2 d hd hv
      have := (valid_distance_bounds d hv).2
      rw [a3, hmin] at *
      linarith
    · exact (mem_validDistances _ _).mpr a3
  · intro x hx
    obtain ⟨y, hy, hyv, rfl⟩ := (mem_validDistances _ _).mp hx
    exact a2 y hy hyv
  · rcases b3 with b3 | b3
    · have := b2 d hd hv
      have := (valid_distance_bounds d hv).1
      rw [b3, hmax] at *
      linarith
    · exact (mem_validDistances _ _).mpr b3
  · intro x hx
    obtain ⟨y, hy, hyv, rfl⟩ := (mem_validDistances _ _).mp hx
    exact b2 y hy hyv

theorem foldl_loopBody_all_rejected (ds : List ℚ) (s : Machine)
    (h : ∀ x ∈ ds, x ≤ 0.00002 ∨ x ≥ 0.018) :
    (List.foldl loopBody s ds).MinDistance = s.MinDistance ∧
    (List.foldl loopBody s ds).MaxDistance = s.MaxDistance := by
  constructor
  · rcases (foldl_loopBody_MinDistance ds s).2.2 with h3 | ⟨x, hx, ⟨hv1, hv2⟩, _⟩
    · exact h3
    · rcases h x hx with hh | hh
      · exact absurd hv1 (not_lt.mpr hh)
      · exact absurd hv2 (not_lt.mpr hh)
  · rcases (foldl_loopBody_MaxDistance ds s).2.2 with h3 | ⟨x, hx, ⟨hv1, hv2⟩, _⟩
    · exact h3
    · rcases h x hx with hh | hh
      · exact absurd hv1 (not_lt.mpr hh)
      · exact absurd hv2 (not_lt.mpr hh)

/-! ## Distance calculator and statistics: properties -/

/-- C1: for every echo duration `d` the loop takes the valid branch (it
prints the measured distance) if and only if `0.00002 < d` and `d < 0.018`,
and the invalid branch otherwise; both bounds are strict, so the durations
`0.00002`, `0.018`, `0.00001` and `0.02` are all rejected. -/
theorem validity_window_strict (s : Machine) (d : ℚ) :
    ((loopBody s d).trace = s.trace ++ [Effect.printf (Line.measured d (d * 13544.08 / 2))] ↔
      0.00002 < d ∧ d < 0.018) ∧
    ((loopBody s d).trace = s.trace ++ [Effect.printf (Line.rejected d)] ↔
      ¬ (0.00002 < d ∧ d < 0.018)) ∧
    (loopBody s 0.00002).trace = s.trace ++ [Effect.printf (Line.rejected 0.00002)] ∧
    (loopBody s 0.018).trace = s.trace ++ [Effect.printf (Line.rejected 0.018)] ∧
    (loopBody s 0.00001).trace = s.trace ++ [Effect.printf (Line.rejected 0.00001)] ∧
    (loopBody s 0.02).trace = s.trace ++ [Effect.printf (Line.rejected 0.02)] := by
  have key : ∀ x : ℚ, ¬ (0.00002 < x ∧ x < 0.018) →
      (loopBody s x).trace = s.trace ++ [Effect.printf (Line.rejected x)] := by
    intro x hx
    rw [loopBody_rejected s x hx]
  refine ⟨?_, ?_, key _ (by norm_num), key _ (by norm_num), key _ (by norm_num),
    key _ (by norm_num)⟩
  · by_cases hv : 0.00002 < d ∧ d < 0.018
    · exact iff_of_true (loopBody_trace_measured s d hv) hv
    · rw [key d hv]
      refine iff_of_false ?_ hv
      intro h
      have h := List.append_cancel_left h
      simp at h
  · by_cases hv : 0.00002 < d ∧ d < 0.018
    · rw [loopBody_trace_measured s d hv]
      refine iff_of_false ?_ (not_not.mpr hv)
      intro h
      have h := List.append_cancel_left h
      simp at h
    · exact iff_of_true (key d hv) hv

/-- C2: for every echo duration `d` with `0.00002 < d < 0.018` the distance
computed for the reading is `d * 13544.08 / 2` inches, and this is the
distance printed; for `d = 0.01` it is `67.7204` inches. -/
theorem distance_of_valid_reading (s : Machine) (d : ℚ) (h1 : 0.00002 < d) (h2 : d < 0.018) :
    (loopBody s d).Distance = d * 13544.08 / 2 ∧
    (loopBody s d).trace = s.trace ++ [Effect.printf (Line.measured d (d * 13544.08 / 2))] ∧
    (loopBody s 0.01).Distance = 67.7204 := by
  refine ⟨loopBody_Distance s d ⟨h1, h2⟩, loopBody_trace_measured s d ⟨h1, h2⟩, ?_⟩
  rw [loopBody_Distance s 0.01 (by norm_num)]
  norm_num

theorem distance_of_valid_reading_witness :
    (0.00002 : ℚ) < 0.01 ∧ (0.01 : ℚ) < 0.018 ∧
    (loopBody Machine.initial 0.01).Distance = 0.01 * 13544.08 / 2 :=
  ⟨by norm_num, by norm_num,
    (distance_of_valid_reading Machine.initial 0.01 (by norm_num) (by norm_num)).1⟩

/-- C3: when at least one of the durations processed by the loop of `main`
(the first 500 measured) is valid, the final `MinDistance` is the smallest and
the final `MaxDistance` the largest of the distances `d * 13544.08 / 2` of the
valid durations; every such distance lies strictly between 0 and 1000, so
neither sentinel survives.  Durations whose distances are 10, 25 and 5 inches
give minimum 5 and maximum 25. -/
theorem statistics_are_extremes (signedChar : Bool) (os : TimerService) (ds : List ℚ)
    (h : ∃ d ∈ ds.take 500, 0.00002 < d ∧ d < 0.018) :
    ((main signedChar os ds).1.MinDistance ∈ validDistances (ds.take 500) ∧
      ∀ x ∈ validDistances (ds.take 500), (main signedChar os ds).1.MinDistance ≤ x) ∧
    ((main signedChar os ds).1.MaxDistance ∈ validDistances (ds.take 500) ∧
      ∀ x ∈ validDistances (ds.take 500), x ≤ (main signedChar os ds).1.MaxDistance) ∧
    (∀ x ∈ validDistances (ds.take 500), 0 < x ∧ x < 1000) ∧
    (main signedChar os ds).1.MinDistance ≠ 1000 ∧
    (main signedChar os ds).1.MaxDistance ≠ 0 ∧
    validDistances [10 * 2 / 13544.08, 25 * 2 / 13544.08, 5 * 2 / 13544.08] = [10, 25, 5] ∧
    (main signedChar os [10 * 2 / 13544.08, 25 * 2 / 13544.08, 5 * 2 / 13544.08]).1.MinDistance = 5 ∧
    (main signedChar os [10 * 2 / 13544.08, 25 * 2 / 13544.08, 5 * 2 / 13544.08]).1.MaxDistance = 25 := by
  have gen : ∀ l : List ℚ, (∃ d ∈ l.take 500, 0.00002 < d ∧ d < 0.018) →
      ((main signedChar os l).1.MinDistance ∈ validDistances (l.take 500) ∧
        ∀ x ∈ validDistances (l.take 500), (main signedChar os l).1.MinDistance ≤ x) ∧
      ((main signedChar os l).1.MaxDistance ∈ validDistances (l.take 500) ∧
        ∀ x ∈ validDistances (l.take 500), x ≤ (main signedChar os l).1.MaxDistance) := by
    intro l hl
    obtain ⟨_, e2, e3⟩ := main_eq_samplingLoop signedChar os l
    rw [e2, e3]
    exact samplingLoop_statistics (loopEntry signedChar os) l rfl rfl rfl hl
  have bounds : ∀ x ∈ validDistances (ds.take 500), 0 < x ∧ x < 1000 := by
    intro x hx
    obtain ⟨y, _, hyv, rfl⟩ := (mem_validDistances _ _).mp hx
    exact valid_distance_bounds y hyv
  have hL : validDistances [10 * 2 / 13544.08, 25 * 2 / 13544.08, 5 * 2 / 13544.08]
      = [10, 25, 5] := by
    unfold validDistances
    norm_num [List.filter]
  obtain ⟨⟨m1, m2⟩, ⟨M1, M2⟩⟩ := gen ds h
  have ex : ∃ d ∈ List.take 500 [(10 : ℚ) * 2 / 13544.08, 25 * 2 / 13544.08, 5 * 2 / 13544.08],
      0.00002 < d ∧ d < 0.018 :=
    ⟨10 * 2 / 13544.08, by simp, by norm_num⟩
  obtain ⟨⟨c1, c2⟩, ⟨C1, C2⟩⟩ := gen _ ex
  have ht : List.take 500 [(10 : ℚ) * 2 / 13544.08, 25 * 2 / 13544.08, 5 * 2 / 13544.08]
      = [10 * 2 / 13544.08, 25 * 2 / 13544.08, 5 * 2 / 13544.08] := rfl
  rw [ht, hL] at c1 c2 C1 C2
  refine ⟨⟨m1, m2⟩, ⟨M1, M2⟩, bounds, ?_, ?_, hL, ?_, ?_⟩
  · exact ne_of_lt (bounds _ m1).2
  · exact ne_of_gt (bounds _ M1).1
  · have h5 := c2 5 (by simp)
    simp only [List.mem_cons, List.mem_singleton, List.not_mem_nil, or_false] at c1
    rcases c1 with c | c | c
    · rw [c] at h5; norm_num at h5
    · rw [c] at h5; norm_num at h5
    · exact c
  · have h25 := C2 25 (by simp)
    simp only [List.mem_cons, List.mem_singleton, List.not_mem_nil, or_false] at C1
    rcases C1 with c | c | c
    · rw [c] at h25; norm_num at h25
    · exact c
    · rw [c] at h25; norm_num at h25

theorem statistics_are_extremes_witness :
    (∃ d ∈ List.take 500 [(0.01 : ℚ), 0.02, 0.001], 0.00002 < d ∧ d < 0.018) ∧
    (main true ⟨0, 0⟩ [0.01, 0.02, 0.001]).1.MinDistance
      ∈ validDistances (List.take 500 [(0.01 : ℚ), 0.02, 0.001]) :=
  ⟨⟨0.01, by simp, by norm_num⟩,
    (statistics_are_extremes true ⟨0, 0⟩ [0.01, 0.02, 0.001]
      ⟨0.01, by simp, by norm_num⟩).1.1⟩

/-- C4: for every state and every invalid echo duration (`d ≤ 0.00002` or
`d ≥ 0.018`) one iteration leaves `MinDistance` and `MaxDistance` unchanged
and still increments `EventCounter`, so the loop goes on with the next
duration; a run of `main` in which no duration is valid ends with
`MinDistance = 1000` and `MaxDistance = 0`. -/
theorem invalid_reading_leaves_statistics (signedChar : Bool) (os : TimerService)
    (s : Machine) (d : ℚ) (ds : List ℚ)
    (hd : d ≤ 0.00002 ∨ d ≥ 0.018) (hds : ∀ x ∈ ds, x ≤ 0.00002 ∨ x ≥ 0.018) :
    (loopBody s d).MinDistance = s.MinDistance ∧
    (loopBody s d).MaxDistance = s.MaxDistance ∧
    (loopBody s d).EventCounter = s.EventCounter + 1 ∧
    (s.EventCounter < 500 → samplingLoop s (d :: ds) = samplingLoop (loopBody s d) ds) ∧
    (main signedChar os ds).1.MinDistance = 1000 ∧
    (main signedChar os ds).1.MaxDistance = 0 := by
  have hv : ¬ (0.00002 < d ∧ d < 0.018) := by
    rintro ⟨a, b⟩
    rcases hd with hd | hd
    · exact absurd a (not_lt.mpr hd)
    · exact absurd b (not_lt.mpr hd)
  refine ⟨loopBody_MinDistance_rejected s d hv, loopBody_MaxDistance_rejected s d hv,
    loopBody_EventCounter s d, ?_, ?_, ?_⟩
  · intro hlt
    rw [samplingLoop, if_pos hlt]
  · rw [(main_eq_samplingLoop signedChar os ds).2.1, samplingLoop_eq_foldl]
    rw [(foldl_loopBody_all_rejected _ _ (fun x hx => hds x (List.mem_of_mem_take hx))).1]
    rfl
  · rw [(main_eq_samplingLoop signedChar os ds).2.2, samplingLoop_eq_foldl]
    rw [(foldl_loopBody_all_rejected _ _ (fun x hx => hds x (List.mem_of_mem_take hx))).2]
    rfl

theorem invalid_reading_leaves_statistics_witness :
    ((0.02 : ℚ) ≤ 0.00002 ∨ (0.02 : ℚ) ≥ 0.018) ∧
    (∀ x ∈ [(0.00001 : ℚ), 0.5], x ≤ 0.00002 ∨ x ≥ 0.018) ∧
    (loopBody Machine.initial 0.02).MinDistance = Machine.initial.MinDistance ∧
    (main false ⟨0, 0⟩ [0.00001, 0.5]).1.MinDistance = 1000 :=
  have hd : (0.02 : ℚ) ≤ 0.00002 ∨ (0.02 : ℚ) ≥ 0.018 := Or.inr (by norm_num)
  have hds : ∀ x ∈ [(0.00001 : ℚ), 0.5], x ≤ 0.00002 ∨ x ≥ 0.018 := by
    intro x hx
    simp only [List.mem_cons, List.mem_singleton, List.not_mem_nil, or_false] at hx
    rcases hx with rfl | rfl
    · exact Or.inl (by norm_num)
    · exact Or.inr (by norm_num)
  ⟨hd, hds,
    (invalid_reading_leaves_statistics false ⟨0, 0⟩ Machine.initial 0.02 [0.00001, 0.5] hd hds).1,
    (invalid_reading_leaves_statistics false ⟨0, 0⟩ Machine.initial 0.02 [0.00001, 0.5] hd hds).2.2.2.2.1⟩

/-- C9: for every prior state and every valid reading with distance
`x = d * 13544.08 / 2`, after the iteration `MinDistance ≤ x ≤ MaxDistance`;
and in the state the loop reaches from any state once a valid reading has been
processed, whatever is processed after it, `MinDistance ≤ MaxDistance`. -/
theorem fold_brackets_reading (s : Machine) (d : ℚ) (pre post : List ℚ)
    (h1 : 0.00002 < d) (h2 : d < 0.018) (hc : s.EventCounter + pre.length < 500) :
    (loopBody s d).MinDistance ≤ d * 13544.08 / 2 ∧
    d * 13544.08 / 2 ≤ (loopBody s d).MaxDistance ∧
    (loopBody s d).MinDistance ≤ (loopBody s d).MaxDistance ∧
    (samplingLoop s (pre ++ d :: post)).MinDistance ≤
      (samplingLoop s (pre ++ d :: post)).MaxDistance := by
  have one : ∀ t : Machine, (loopBody t d).MinDistance ≤ d * 13544.08 / 2 ∧
      d * 13544.08 / 2 ≤ (loopBody t d).MaxDistance := by
    intro t
    rw [loopBody_MinDistance t d ⟨h1, h2⟩, loopBody_MaxDistance t d ⟨h1, h2⟩]
    exact ⟨min_le_left _ _, le_max_left _ _⟩
  refine ⟨(one s).1, (one s).2, le_trans (one s).1 (one s).2, ?_⟩
  rw [samplingLoop_append pre (d :: post) s (le_of_lt hc), samplingLoop,
    if_pos (by rw [foldl_loopBody_EventCounter]; exact hc), samplingLoop_eq_foldl]
  exact foldl_loopBody_min_le_max _ _ (le_trans (one _).1 (one _).2)

theorem fold_brackets_reading_witness :
    (0.00002 : ℚ) < 0.001 ∧ (0.001 : ℚ) < 0.018 ∧
    Machine.initial.EventCounter + ([0.5] : List ℚ).length < 500 ∧
    (samplingLoop Machine.initial ([0.5] ++ 0.001 :: [0.002])).MinDistance ≤
      (samplingLoop Machine.initial ([0.5] ++ 0.001 :: [0.002])).MaxDistance :=
  ⟨by norm_num, by norm_num, by decide,
    (fold_brackets_reading Machine.initial 0.001 [0.5] [0.002] (by norm_num) (by norm_num)
      (by decide)).2.2.2⟩

/-! ## Pulse generator: lemmas -/

theorem charToInt_eq_zero (signedChar : Bool) (byte : Nat) :
    charToInt signedChar byte = 0 ↔ byte % 256 = 0 := by
  unfold charToInt
  cases signedChar <;> simp <;> omega

theorem intToChar_charToInt (signedChar : Bool) (byte : Nat) :
    intToChar (charToInt signedChar byte) = byte % 256 := by
  unfold intToChar charToInt
  cases signedChar
  · simp
    omega
  · simp
    split_ifs <;> omega

theorem TimerInitialization_WriteData (signedChar : Bool) (os : TimerService) (s : Machine) :
    (TimerInitialization signedChar os s).WriteData = s.WriteData := rfl

theorem time_info_eq (signedChar : Bool) (s : Machine) :
    time_info signedChar s =
      ⟨⟨0, if s.WriteData % 256 = 0 then 99000000 else 1000000⟩, ⟨0, 0⟩⟩ := by
  unfold time_info
  by_cases h : s.WriteData % 256 = 0
  · rw [if_pos ((charToInt_eq_zero signedChar _).mpr h), if_pos h]
  · rw [if_neg (fun h0 => h ((charToInt_eq_zero signedChar _).mp h0)), if_neg h]

theorem PulseTriggerAction_WriteData (signedChar : Bool) (os : TimerService) (s : Machine) :
    (PulseTriggerAction signedChar os s).WriteData =
      if s.WriteData % 256 = 0 then 0xFF else 0x00 := by
  unfold PulseTriggerAction
  dsimp only
  rw [TimerInitialization_WriteData]
  by_cases h : s.WriteData % 256 = 0
  · rw [if_pos ((charToInt_eq_zero signedChar _).mpr h), if_pos h]
    rfl
  · rw [if_neg (fun h0 => h ((charToInt_eq_zero signedChar _).mp h0)), if_neg h]
    rfl

theorem PulseTriggerAction_eq (signedChar : Bool) (os : TimerService) (s : Machine) :
    PulseTriggerAction signedChar os s =
      TimerInitialization signedChar os
        { s with
          WriteData := if s.WriteData % 256 = 0 then 0xFF else 0x00
          trace := s.trace ++
            [Effect.out8 Port.SensorTrigger (if s.WriteData % 256 = 0 then 0xFF else 0x00)] } := by
  unfold PulseTriggerAction
  dsimp only
  by_cases h : s.WriteData % 256 = 0
  · rw [if_pos ((charToInt_eq_zero signedChar _).mpr h), if_pos h]
    dsimp only
    rw [intToChar_charToInt]
    rfl
  · rw [if_neg (fun h0 => h ((charToInt_eq_zero signedChar _).mp h0)), if_neg h]
    dsimp only
    rw [intToChar_charToInt]
    rfl

theorem HardwareInitialization_WriteData (signedChar : Bool) (s : Machine) :
    (HardwareInitialization signedChar s).WriteData = 0x00 := rfl

theorem expiries_WriteData (signedChar : Bool) (os : TimerService) (s : Machine)
    (h : s.WriteData = 0x00) (n : Nat) :
    (expiries signedChar os n s).WriteData = if n % 2 = 0 then 0x00 else 0xFF := by
  induction n with
  | zero => simpa [expiries] using h
  | succ n ih =>
    rw [expiries, PulseTriggerAction_WriteData, ih]
    rcases Nat.mod_two_eq_zero_or_one n with hn | hn
    · have : (n + 1) % 2 = 1 := by omega
      simp [hn, this]
    · have : (n + 1) % 2 = 0 := by omega
      simp [hn, this]

/-! ## Pulse generator: properties -/

/-- C5: starting from the deasserted trigger state that
`HardwareInitialization` sets (`WriteData = 0x00`), after `n` runs of the
handler `PulseTriggerAction` the trigger state is asserted
(`WriteData = 0xFF`) if and only if `n` is odd and deasserted
(`WriteData = 0x00`) if and only if `n` is even. -/
theorem trigger_state_parity (signedChar : Bool) (os : TimerService) (s : Machine) (n : Nat) :
    (HardwareInitialization signedChar s).WriteData = 0x00 ∧
    ((expiries signedChar os n (HardwareInitialization signedChar s)).WriteData = 0xFF ↔ Odd n) ∧
    ((expiries signedChar os n (HardwareInitialization signedChar s)).WriteData = 0x00 ↔ Even n) := by
  refine ⟨rfl, ?_, ?_⟩
  · rw [expiries_WriteData signedChar os _ rfl n, Nat.odd_iff]
    rcases Nat.mod_two_eq_zero_or_one n with hn | hn <;> simp [hn]
  · rw [expiries_WriteData signedChar os _ rfl n, Nat.even_iff]
    rcases Nat.mod_two_eq_zero_or_one n with hn | hn <;> simp [hn]

/-- C10: for every prior state one run of `PulseTriggerAction` stores the
toggled value (`0xFF` after `0x00`, `0x00` otherwise), writes it to the
trigger port and then hands `timer_settime` a one-shot request (interval 0)
whose delay is 1,000,000 ns when the value written is `0xFF` and
99,000,000 ns when it is `0x00`; the delays requested by two consecutive runs
add up to 100,000,000 ns. -/
theorem pulse_trigger_step (signedChar : Bool) (os : TimerService) (s : Machine) :
    (PulseTriggerAction signedChar os s).WriteData
      = (if s.WriteData % 256 = 0x00 then 0xFF else 0x00) ∧
    (PulseTriggerAction signedChar os s).trace = s.trace ++
      [Effect.out8 Port.SensorTrigger (PulseTriggerAction signedChar os s).WriteData,
       Effect.timer_settime (time_info signedChar (PulseTriggerAction signedChar os s))] ∧
    time_info signedChar (PulseTriggerAction signedChar os s) =
      ⟨⟨0, if (PulseTriggerAction signedChar os s).WriteData = 0xFF then 1000000 else 99000000⟩,
        ⟨0, 0⟩⟩ ∧
    (PulseTriggerAction signedChar os s).pending =
      (if os.timer_settime = 0 then some (time_info signedChar (PulseTriggerAction signedChar os s))
        else s.pending) ∧
    (time_info signedChar (PulseTriggerAction signedChar os s)).it_value.nanoseconds +
      (time_info signedChar
        (PulseTriggerAction signedChar os (PulseTriggerAction signedChar os s))).it_value.nanoseconds
      = 100000000 := by
  have hw := PulseTriggerAction_WriteData signedChar os s
  have hw2 := PulseTriggerAction_WriteData signedChar os (PulseTriggerAction signedChar os s)
  refine ⟨hw, ?_, ?_, ?_, ?_⟩
  · rw [hw, PulseTriggerAction_eq]
    unfold TimerInitialization
    simp only [List.append_assoc, List.singleton_append]
    rw [time_info_eq, time_info_eq]
  · rw [time_info_eq, hw]
    by_cases h : s.WriteData % 256 = 0 <;> simp [h]
  · rw [PulseTriggerAction_eq]
    unfold TimerInitialization
    dsimp only
    rw [time_info_eq, time_info_eq]
  · rw [time_info_eq, time_info_eq, hw2, hw]
    by_cases h : s.WriteData % 256 = 0 <;> simp [h, timespec.nanoseconds]

/-- C7: evaluation of the code at the state left by
`HardwareInitialization`.  The first expiry asserts the trigger line
(`WriteData = 0xFF`) and the delay then requested of the timer is exactly
1,000,000 ns, which is not strictly less than 1,000,000 ns. -/
theorem asserted_delay_is_one_millisecond (signedChar : Bool) (os : TimerService) :
    (PulseTriggerAction signedChar os
      (HardwareInitialization signedChar Machine.initial)).WriteData = 0xFF ∧
    (time_info signedChar (PulseTriggerAction signedChar os
      (HardwareInitialization signedChar Machine.initial))).it_value.nanoseconds = 1000000 ∧
    ¬ ((time_info signedChar (PulseTriggerAction signedChar os
      (HardwareInitialization signedChar Machine.initial))).it_value.nanoseconds < 1000000) := by
  have hw : (PulseTriggerAction signedChar os
      (HardwareInitialization signedChar Machine.initial)).WriteData = 0xFF := by
    rw [PulseTriggerAction_WriteData, HardwareInitialization_WriteData]
    rfl
  have ht : (time_info signedChar (PulseTriggerAction signedChar os
      (HardwareInitialization signedChar Machine.initial))).it_value.nanoseconds = 1000000 := by
    rw [time_info_eq, hw]
    rfl
  exact ⟨hw, ht, by rw [ht]; exact lt_irrefl _⟩

/-! ## Timer failures and `main` -/

theorem busyWait_eq_some (level : Nat) (reads : List Nat) (n : Nat) (post : List Nat) :
    busyWait level reads = some (n, post) ↔
      ∃ spin x, reads = spin ++ x :: post ∧ n = spin.length + 1 ∧
        (∀ y ∈ spin, y &&& 0x01 = level) ∧ x &&& 0x01 ≠ level := by
  induction reads generalizing n with
  | nil =>
    constructor
    · intro h
      simp [busyWait] at h
    · rintro ⟨spin, x, h, _⟩
      simp at h
  | cons b rest ih =>
    unfold busyWait
    by_cases hb : b &&& 0x01 = level
    · rw [if_pos hb]
      constructor
      · intro h
        obtain ⟨⟨m, q⟩, hr, he⟩ := Option.map_eq_some'.mp h
        simp only [Prod.mk.injEq] at he
        obtain ⟨rfl, rfl⟩ := he
        obtain ⟨spin, x, h1, h2, h3, h4⟩ := (ih m).mp hr
        refine ⟨b :: spin, x, by rw [h1]; rfl, by rw [h2]; rfl, ?_, h4⟩
        intro y hy
        rcases List.mem_cons.mp hy with rfl | hy
        · exact hb
        · exact h3 y hy
      · rintro ⟨spin, x, h1, h2, h3, h4⟩
        cases spin with
        | nil =>
          simp only [List.nil_append, List.cons.injEq] at h1
          exact absurd (h1.1 ▸ hb) h4
        | cons c spin =>
          simp only [List.cons_append, List.cons.injEq] at h1
          have := (ih spin.length.succ).mpr
            ⟨spin, x, h1.2, rfl, fun y hy => h3 y (List.mem_cons_of_mem _ hy), h4⟩
          rw [this, h2]
          rfl
    · rw [if_neg hb]
      constructor
      · intro h
        simp only [Option.some.injEq, Prod.mk.injEq] at h
        exact ⟨[], b, by rw [h.2]; rfl, by rw [← h.1]; rfl, by simp, hb⟩
      · rintro ⟨spin, x, h1, h2, h3, _⟩
        cases spin with
        | nil =>
          simp only [List.nil_append, List.cons.injEq] at h1
          rw [h2, h1.2]
          rfl
        | cons c spin =>
          simp only [List.cons_append, List.cons.injEq] at h1
          exact absurd (h1.1 ▸ h3 c (List.mem_cons_self _ _)) hb

theorem busyWait_eq_none (level : Nat) (reads : List Nat) :
    busyWait level reads = none ↔ ∀ y ∈ reads, y &&& 0x01 = level := by
  induction reads with
  | nil => simp [busyWait]
  | cons b rest ih =>
    unfold busyWait
    by_cases hb : b &&& 0x01 = level
    · rw [if_pos hb, Option.map_eq_none', ih]
      constructor
      · intro h y hy
        rcases List.mem_cons.mp hy with rfl | hy
        · exact hb
        · exact h y hy
      · intro h y hy
        exact h y (List.mem_cons_of_mem _ hy)
    · rw [if_neg hb]
      constructor
      · intro h
        exact absurd h (by simp)
      · intro h
        exact absurd (h b (List.mem_cons_self _ _)) hb

theorem busyWait_map_mod (level : Nat) (reads : List Nat) :
    busyWait level (reads.map (· % 2)) =
      (busyWait level reads).map fun r => (r.1, r.2.map (· % 2)) := by
  induction reads with
  | nil => rfl
  | cons b rest ih =>
    have hb : (b % 2) &&& 0x01 = b &&& 0x01 := by simp [Nat.and_one_is_mod]
    rw [List.map_cons]
    unfold busyWait
    rw [hb]
    by_cases h : b &&& 0x01 = level
    · rw [if_pos h, if_pos h, ih]
      cases busyWait level rest <;> rfl
    · rw [if_neg h, if_neg h]
      rfl

theorem measureEcho_eq_some (reads : List Nat) (w : EchoWindow) :
    measureEcho reads = some w ↔
      ∃ low r high f, reads = low ++ r :: (high ++ f :: w.rest) ∧
        (∀ y ∈ low, y % 2 = 0) ∧ r % 2 = 1 ∧ (∀ y ∈ high, y % 2 = 1) ∧ f % 2 = 0 ∧
        w.startAfter = low.length + 1 ∧ w.endAfter = low.length + 1 + (high.length + 1) := by
  have e0 : ∀ y : Nat, y &&& 0x01 = 0x00 ↔ y % 2 = 0 := fun y => by rw [Nat.and_one_is_mod]
  have e1 : ∀ y : Nat, y &&& 0x01 = 0x01 ↔ y % 2 = 1 := fun y => by rw [Nat.and_one_is_mod]
  have n0 : ∀ y : Nat, y &&& 0x01 ≠ 0x00 ↔ y % 2 = 1 := fun y => by
    rw [Nat.and_one_is_mod]; omega
  have n1 : ∀ y : Nat, y &&& 0x01 ≠ 0x01 ↔ y % 2 = 0 := fun y => by
    rw [Nat.and_one_is_mod]; omega
  unfold measureEcho
  constructor
  · intro h
    cases h1 : busyWait 0x00 reads with
    | none => rw [h1] at h; simp at h
    | some p =>
      obtain ⟨n, afterRise⟩ := p
      rw [h1] at h
      dsimp only at h
      cases h2 : busyWait 0x01 afterRise with
      | none => rw [h2] at h; simp at h
      | some q =>
        obtain ⟨m, rest⟩ := q
        rw [h2] at h
        dsimp only at h
        simp only [Option.some.injEq] at h
        subst h
        obtain ⟨low, r, a1, a2, a3, a4⟩ := (busyWait_eq_some _ _ _ _).mp h1
        obtain ⟨high, f, b1, b2, b3, b4⟩ := (busyWait_eq_some _ _ _ _).mp h2
        refine ⟨low, r, high, f, by rw [a1, b1], fun y hy => (e0 y).mp (a3 y hy), (n0 r).mp a4,
          fun y hy => (e1 y).mp (b3 y hy), (n1 f).mp b4, a2, by rw [a2, b2]⟩
  · rintro ⟨low, r, high, f, h, a3, a4, b3, b4, hs, he⟩
    have h1 : busyWait 0x00 reads = some (low.length + 1, high ++ f :: w.rest) :=
      (busyWait_eq_some _ _ _ _).mpr
        ⟨low, r, h, rfl, fun y hy => (e0 y).mpr (a3 y hy), (n0 r).mpr a4⟩
    have h2 : busyWait 0x01 (high ++ f :: w.rest) = some (high.length + 1, w.rest) :=
      (busyWait_eq_some _ _ _ _).mpr
        ⟨high, f, rfl, rfl, fun y hy => (e1 y).mpr (b3 y hy), (n1 f).mpr b4⟩
    rw [h1]
    dsimp only
    rw [h2]
    dsimp only
    cases w with
    | mk sa ea rs =>
      dsimp only at hs he
      rw [hs, he]

theorem measureEcho_map_mod (reads : List Nat) :
    measureEcho (reads.map (· % 2)) =
      (measureEcho reads).map fun w => { w with rest := w.rest.map (· % 2) } := by
  unfold measureEcho
  rw [busyWait_map_mod]
  cases busyWait 0x00 reads with
  | none => rfl
  | some p =>
    obtain ⟨n, afterRise⟩ := p
    simp only [Option.map_some']
    rw [busyWait_map_mod]
    cases busyWait 0x01 afterRise with
    | none => rfl
    | some q => rfl

theorem measureEcho_isSome (reads : List Nat) (i k a b : Nat) (hik : i < k)
    (hi : reads[i]? = some a) (ha : a % 2 = 1) (hk : reads[k]? = some b) (hb : b % 2 = 0) :
    ∃ w, measureEcho reads = some w := by
  unfold measureEcho
  cases h1 : busyWait 0x00 reads with
  | none =>
    have := (busyWait_eq_none _ _).mp h1 a (List.getElem?_mem hi)
    rw [Nat.and_one_is_mod] at this
    omega
  | some p =>
    obtain ⟨n, afterRise⟩ := p
    dsimp only
    obtain ⟨low, r, a1, _, a3, _⟩ := (busyWait_eq_some _ _ _ _).mp h1
    have hlow : low.length ≤ i := by
      by_contra hlt
      rw [a1, List.getElem?_append_left (not_le.mp hlt)] at hi
      have := a3 a (List.getElem?_mem hi)
      rw [Nat.and_one_is_mod] at this
      omega
    cases h2 : busyWait 0x01 afterRise with
    | none =>
      have hk2 : afterRise[k - low.length - 1]? = some b := by
        rw [a1, List.getElem?_append_right (by omega)] at hk
        have : k - low.length = (k - low.length - 1) + 1 := by omega
        rw [this, List.getElem?_cons_succ] at hk
        exact hk
      have := (busyWait_eq_none _ _).mp h2 b (List.getElem?_mem hk2)
      rw [Nat.and_one_is_mod] at this
      omega
    | some q => exact ⟨_, rfl⟩

/-! ## Echo timer: properties -/

/-- C8: when the reads of the echo port contain a read with bit 0 set
followed later by a read with bit 0 clear, one measurement completes: it
spins through the reads with bit 0 clear, takes the start time stamp right
after the first read with bit 0 set, spins through the reads with bit 0 set
and takes the end time stamp right after the first following read with bit 0
clear.  Reads that agree on bit 0 select the same two reads, whatever bits 1
to 7 are.  A measurement completes in no other way: every completed
measurement has passed such a rising and such a falling read. -/
theorem echo_edges (reads : List Nat) (i k a b : Nat) (hik : i < k)
    (hi : reads[i]? = some a) (ha : a % 2 = 1) (hk : reads[k]? = some b) (hb : b % 2 = 0) :
    (∃ low r high f post, reads = low ++ r :: (high ++ f :: post) ∧
      (∀ y ∈ low, y % 2 = 0) ∧ r % 2 = 1 ∧ (∀ y ∈ high, y % 2 = 1) ∧ f % 2 = 0 ∧
      measureEcho reads =
        some ⟨low.length + 1, low.length + 1 + (high.length + 1), post⟩) ∧
    (∀ other : List Nat, other.map (· % 2) = reads.map (· % 2) →
      (measureEcho other).map (fun w => (w.startAfter, w.endAfter)) =
        (measureEcho reads).map (fun w => (w.startAfter, w.endAfter))) ∧
    (∀ (l : List Nat) (w : EchoWindow), measureEcho l = some w →
      ∃ low r high f, l = low ++ r :: (high ++ f :: w.rest) ∧
        (∀ y ∈ low, y % 2 = 0) ∧ r % 2 = 1 ∧ (∀ y ∈ high, y % 2 = 1) ∧ f % 2 = 0 ∧
        w.startAfter = low.length + 1 ∧ w.endAfter = low.length + 1 + (high.length + 1)) := by
  refine ⟨?_, ?_, fun l w h => (measureEcho_eq_some l w).mp h⟩
  · obtain ⟨w, hw⟩ := measureEcho_isSome reads i k a b hik hi ha hk hb
    obtain ⟨low, r, high, f, h1, h2, h3, h4, h5, h6, h7⟩ := (measureEcho_eq_some reads w).mp hw
    refine ⟨low, r, high, f, w.rest, h1, h2, h3, h4, h5, ?_⟩
    rw [hw, ← h7, ← h6]
  · intro other ho
    have e1 := measureEcho_map_mod other
    have e2 := measureEcho_map_mod reads
    rw [ho, e2] at e1
    have e3 := congrArg (Option.map fun w : EchoWindow => (w.startAfter, w.endAfter)) e1
    simp only [Option.map_map] at e3
    exact e3.symm

theorem echo_edges_witness :
    [0, 2, 1, 3, 0xF1, 4, 1][2]? = some 1 ∧ [0, 2, 1, 3, 0xF1, 4, 1][5]? = some 4 ∧
    (∃ low r high f post, [0, 2, 1, 3, 0xF1, 4, 1] = low ++ r :: (high ++ f :: post) ∧
      (∀ y ∈ low, y % 2 = 0) ∧ r % 2 = 1 ∧ (∀ y ∈ high, y % 2 = 1) ∧ f % 2 = 0 ∧
      measureEcho [0, 2, 1, 3, 0xF1, 4, 1] =
        some ⟨low.length + 1, low.length + 1 + (high.length + 1), post⟩) ∧
    measureEcho [0, 2, 1, 3, 0xF1, 4, 1] = some ⟨3, 6, [1]⟩ :=
  ⟨rfl, rfl,
    (echo_edges [0, 2, 1, 3, 0xF1, 4, 1] 2 5 1 4 (by decide) rfl (by decide) rfl (by decide)).1,
    by decide⟩

end UltrasonicSensor
